import Mathlib

/-!
Shallow embedding of `src/url_downloader.py`, class `URLDownloader_v2`
(the canonical per-worker-counter variant the specification describes).

Modelling conventions:
* Python strings are `String`; target lists are lists of `(url, output_path)` pairs.
* The progress-log file is the list of `LogRecord`s that have been appended to it
  (`update_downloading_status` parses each line `url TAB status` back into its
  url field; it also skips marker lines containing "batch above", which
  `URLDownloader_v2` itself never writes, so the parsed file is exactly the
  record list).
* `collections.Counter` is an association list with distinct keys and positive
  counts; membership (`url in downloaded_url`) is key presence.
* An HTTP GET (`session.get`) either yields a response, modelled by
  `FetchResult.resp ok status` where `ok` is Python's truthiness of the
  response (status < 400), or raises (timeout / connection error), modelled by
  `FetchResult.exn msg`.  Code that can raise returns `Except String`.
* `time.sleep`, stderr printing, disk writes of response bodies and the
  shared `url_cnter` progress counter are observability-only side effects;
  the model records the breaker pause as a boolean so pauses can be counted.
-/

/-- One progress-log record: a line `url TAB status`, status "o" (success)
or "x" (failure). -/
structure LogRecord where
  url : String
  status : String
deriving DecidableEq, Repr

/-- The urls of a list of log records (what
`[line.split("\t")[0] for line in f]` extracts from the log file). -/
def logUrls (records : List LogRecord) : List String := records.map (·.url)

/-- `collections.Counter` as used by `update_downloading_status`: an
association list key -> count, insertion ordered. -/
abbrev Counter := List (String × Nat)

/-- Adding one occurrence of key `k` to a counter (building
`collections.Counter(list)` adds the list elements one by one). -/
def counterIncr : Counter → String → Counter
  | [], k => [(k, 1)]
  | (a, n) :: rest, k =>
      if a = k then (a, n + 1) :: rest else (a, n) :: counterIncr rest k

/-- `collections.Counter(ks)`. -/
def counterOf (ks : List String) : Counter := ks.foldl counterIncr []

/-- Python `k in counter`: key presence. -/
def counterMem (c : Counter) (k : String) : Bool := c.any fun p => p.1 == k

/-- Python `counter[k]` for a present key (0 for an absent one, which is
also Counter's semantics). -/
def counterGet : Counter → String → Nat
  | [], _ => 0
  | (a, n) :: rest, k => if a = k then n else counterGet rest k

/-- `downloaded_url[url] -= 1` followed by
`if downloaded_url[url] == 0: downloaded_url.pop(url)`. -/
def counterDecPop : Counter → String → Counter
  | [], _ => []
  | (a, n) :: rest, k =>
      if a = k then (if n - 1 = 0 then rest else (a, n - 1) :: rest)
      else (a, n) :: counterDecPop rest k

/-- The `for url, output_path in zip(...)` loop body of
`update_downloading_status`: drop a target whose url is still in the counter
(decrementing it), keep it pending otherwise. -/
def updateAux : Counter → List (String × String) → List (String × String)
  | _, [] => []
  | c, (url, path) :: rest =>
      if counterMem c url then updateAux (counterDecPop c url) rest
      else (url, path) :: updateAux c rest

/-- `URLDownloader_v2.update_downloading_status`, as a function from the
current target list (url_list zipped with output_path_list) and the parsed
log file to the new pending target list. -/
def update_downloading_status (targets : List (String × String))
    (records : List LogRecord) : List (String × String) :=
  updateAux (counterOf (logUrls records)) targets

/-- Pointwise truncated decrement of a count function at one key. -/
def decrAt (cnt : String → Nat) (k : String) : String → Nat :=
  fun v => if v = k then cnt k - 1 else cnt v

/-- Reconciliation as the specification words it: walk the targets in
original order against a count-per-URL multiset; while the target's URL has
remaining count > 0, decrement and drop the target, otherwise keep it
pending.  Stated over an abstract count function; compared against
`update_downloading_status` (the source's Counter mechanics) in claim C1. -/
def reconcileSpec : (String → Nat) → List (String × String) → List (String × String)
  | _, [] => []
  | cnt, (url, path) :: rest =>
      if 0 < cnt url then reconcileSpec (decrAt cnt url) rest
      else (url, path) :: reconcileSpec cnt rest

/-- The count-per-URL multiset the spec builds from the log records. -/
def logCount (records : List LogRecord) : String → Nat :=
  fun u => (logUrls records).count u

/-- Occurrences of a url among a target list (multiset-of-URLs view). -/
def countUrl (u : String) (targets : List (String × String)) : Nat :=
  targets.countP fun t => t.1 == u

example :
    update_downloading_status [("u", "p1"), ("u", "p2"), ("v", "q")]
      [⟨"u", "o"⟩] = [("u", "p2"), ("v", "q")] := by decide

example :
    update_downloading_status
      (update_downloading_status [("u", "p1"), ("u", "p2")] [⟨"u", "o"⟩])
      [⟨"u", "o"⟩] = [] := by decide

/-! ### Counter lemmas -/

/-- The keys of a counter, in order. -/
def counterKeys (c : Counter) : List String := c.map Prod.fst

/-- The invariant `collections.Counter` maintains here: distinct keys and
only positive counts (a key is popped as soon as its count reaches 0). -/
def counterWF (c : Counter) : Prop :=
  (counterKeys c).Nodup ∧ ∀ p ∈ c, 0 < p.2

theorem counterGet_eq_zero_of_not_mem_keys {c : Counter} {k : String}
    (h : k ∉ counterKeys c) : counterGet c k = 0 := by
  induction c with
  | nil => rfl
  | cons p rest ih =>
    obtain ⟨a, n⟩ := p
    simp only [counterKeys, List.map_cons, List.mem_cons, not_or] at h
    have hak : ¬ a = k := fun hh => h.1 hh.symm
    simp [counterGet, hak, ih h.2]

theorem counterMem_iff_pos {c : Counter} (h : ∀ p ∈ c, 0 < p.2) (k : String) :
    counterMem c k = true ↔ 0 < counterGet c k := by
  induction c with
  | nil => simp [counterMem, counterGet]
  | cons p rest ih =>
    obtain ⟨a, n⟩ := p
    by_cases hak : a = k
    · have hn : 0 < n := h (a, n) (List.mem_cons_self _ _)
      simp [counterMem, counterGet, hak, hn]
    · have ih2 := ih fun p hp => h p (List.mem_cons_of_mem _ hp)
      simp only [counterMem] at ih2
      simp [counterMem, counterGet, hak, ih2]

theorem counterKeys_mem_incr (c : Counter) (k v : String) :
    v ∈ counterKeys (counterIncr c k) ↔ v ∈ counterKeys c ∨ v = k := by
  induction c with
  | nil => simp [counterIncr, counterKeys]
  | cons p rest ih =>
    obtain ⟨a, n⟩ := p
    by_cases hak : a = k
    · simp [counterIncr, hak, counterKeys, List.mem_cons]
      tauto
    · simp only [counterIncr, if_neg hak, counterKeys, List.map_cons, List.mem_cons]
      simp only [counterKeys] at ih
      rw [ih]
      tauto

theorem counterWF_incr {c : Counter} (h : counterWF c) (k : String) :
    counterWF (counterIncr c k) := by
  induction c with
  | nil =>
    refine ⟨by simp [counterIncr, counterKeys], ?_⟩
    intro p hp
    simp only [counterIncr, List.mem_singleton] at hp
    subst hp
    exact Nat.one_pos
  | cons p rest ih =>
    obtain ⟨a, n⟩ := p
    obtain ⟨hnd, hpos⟩ := h
    simp only [counterKeys, List.map_cons, List.nodup_cons] at hnd
    have hrest : counterWF rest :=
      ⟨hnd.2, fun q hq => hpos q (List.mem_cons_of_mem _ hq)⟩
    by_cases hak : a = k
    · refine ⟨?_, ?_⟩
      · simp only [counterIncr, if_pos hak, counterKeys, List.map_cons,
          List.nodup_cons]
        exact ⟨hnd.1, hnd.2⟩
      · intro q hq
        simp only [counterIncr, if_pos hak, List.mem_cons] at hq
        rcases hq with rfl | hq
        · exact Nat.succ_pos n
        · exact hpos q (List.mem_cons_of_mem _ hq)
    · obtain ⟨ihnd, ihpos⟩ := ih hrest
      refine ⟨?_, ?_⟩
      · simp only [counterIncr, if_neg hak, counterKeys, List.map_cons,
          List.nodup_cons]
        refine ⟨?_, ihnd⟩
        rw [show List.map Prod.fst (counterIncr rest k)
            = counterKeys (counterIncr rest k) from rfl,
          counterKeys_mem_incr]
        rintro (hmem | rfl)
        · exact hnd.1 hmem
        · exact hak rfl
      · intro q hq
        simp only [counterIncr, if_neg hak, List.mem_cons] at hq
        rcases hq with rfl | hq
        · exact hpos (a, n) (List.mem_cons_self _ _)
        · exact ihpos q hq

theorem counterGet_incr (c : Counter) (k v : String) :
    counterGet (counterIncr c k) v
      = if v = k then counterGet c v + 1 else counterGet c v := by
  induction c with
  | nil =>
    by_cases hvk : v = k
    · simp [counterIncr, counterGet, hvk]
    · have hkv : ¬ k = v := fun hh => hvk hh.symm
      simp [counterIncr, counterGet, hvk, hkv]
  | cons p rest ih =>
    obtain ⟨a, n⟩ := p
    by_cases hak : a = k
    · subst hak
      by_cases hva : v = a
      · simp [counterIncr, counterGet, hva]
      · have hav2 : ¬ a = v := fun hh => hva hh.symm
        simp [counterIncr, counterGet, hva, hav2]
    · by_cases hav : a = v
      · subst hav
        have hvk : ¬ a = k := hak
        simp [counterIncr, counterGet, hak, hvk]
      · simp [counterIncr, counterGet, hak, hav, ih]

theorem counterWF_foldl {c : Counter} (h : counterWF c) (ks : List String) :
    counterWF (ks.foldl counterIncr c) := by
  induction ks generalizing c with
  | nil => exact h
  | cons k ks ih => exact ih (counterWF_incr h k)

theorem counterWF_counterOf (ks : List String) : counterWF (counterOf ks) :=
  counterWF_foldl ⟨by simp [counterKeys], by intro p hp; cases hp⟩ ks

theorem counterGet_foldl (c : Counter) (ks : List String) (k : String) :
    counterGet (ks.foldl counterIncr c) k = counterGet c k + ks.count k := by
  induction ks generalizing c with
  | nil => simp
  | cons a ks ih =>
    rw [List.foldl_cons, ih, counterGet_incr, List.count_cons]
    by_cases hka : k = a
    · simp [hka]
      omega
    · have : ¬ (a == k) = true := by
        simp only [beq_iff_eq]
        exact fun hh => hka hh.symm
      simp [hka, this]

theorem counterGet_counterOf (ks : List String) (k : String) :
    counterGet (counterOf ks) k = ks.count k := by
  rw [counterOf, counterGet_foldl]
  simp [counterGet]

theorem counterKeys_decPop_sublist (c : Counter) (k : String) :
    (counterKeys (counterDecPop c k)).Sublist (counterKeys c) := by
  induction c with
  | nil => exact List.Sublist.refl _
  | cons p rest ih =>
    obtain ⟨a, n⟩ := p
    by_cases hak : a = k
    · by_cases hn : n - 1 = 0
      · simp only [counterDecPop, if_pos hak, if_pos hn, counterKeys, List.map_cons]
        exact (List.Sublist.refl _).cons _
      · simp only [counterDecPop, if_pos hak, if_neg hn, counterKeys, List.map_cons]
        exact (List.Sublist.refl _).cons₂ _
    · simp only [counterDecPop, if_neg hak, counterKeys, List.map_cons]
      exact ih.cons₂ _

theorem counterWF_decPop {c : Counter} (h : counterWF c) (k : String) :
    counterWF (counterDecPop c k) := by
  obtain ⟨hnd, hpos⟩ := h
  refine ⟨hnd.sublist (counterKeys_decPop_sublist c k), ?_⟩
  induction c with
  | nil => intro p hp; cases hp
  | cons p rest ih =>
    obtain ⟨a, n⟩ := p
    by_cases hak : a = k
    · by_cases hn : n - 1 = 0
      · simp only [counterDecPop, if_pos hak, if_pos hn]
        exact fun q hq => hpos q (List.mem_cons_of_mem _ hq)
      · simp only [counterDecPop, if_pos hak, if_neg hn]
        intro q hq
        rcases List.mem_cons.mp hq with rfl | hq
        · exact Nat.pos_of_ne_zero hn
        · exact hpos q (List.mem_cons_of_mem _ hq)
    · simp only [counterDecPop, if_neg hak]
      intro q hq
      rcases List.mem_cons.mp hq with rfl | hq
      · exact hpos (a, n) (List.mem_cons_self _ _)
      · refine ih ?_ ?_ q hq
        · simp only [counterKeys, List.map_cons, List.nodup_cons] at hnd
          exact hnd.2
        · exact fun q2 hq2 => hpos q2 (List.mem_cons_of_mem _ hq2)

theorem counterGet_decPop {c : Counter} (hnd : (counterKeys c).Nodup)
    (k v : String) :
    counterGet (counterDecPop c k) v
      = if v = k then counterGet c k - 1 else counterGet c v := by
  induction c with
  | nil => simp [counterDecPop, counterGet]
  | cons p rest ih =>
    obtain ⟨a, n⟩ := p
    simp only [counterKeys, List.map_cons, List.nodup_cons] at hnd
    by_cases hak : a = k
    · subst hak
      by_cases hn : n - 1 = 0
      · simp only [counterDecPop, if_pos rfl, if_pos hn]
        by_cases hva : v = a
        · subst hva
          have h0 : counterGet rest v = 0 :=
            counterGet_eq_zero_of_not_mem_keys hnd.1
          simp [counterGet, h0, hn]
        · have hav : ¬ a = v := fun hh => hva hh.symm
          simp [counterGet, hva, hav]
      · simp only [counterDecPop, if_pos rfl, if_neg hn]
        by_cases hva : v = a
        · subst hva
          simp [counterGet]
        · have hav : ¬ a = v := fun hh => hva hh.symm
          simp [counterGet, hva, hav]
    · simp only [counterDecPop, if_neg hak]
      by_cases hva : v = a
      · subst hva
        have hvk : ¬ v = k := fun hh => hak (hh ▸ rfl)
        simp [counterGet, hvk]
      · have hav : ¬ a = v := fun hh => hva hh.symm
        by_cases hvk : v = k
        · subst hvk
          simp [counterGet, hav, hak, ih hnd.2]
        · simp [counterGet, hav, hvk, ih hnd.2]

/-! ### The source's Counter walk refines the spec's count-function walk -/

theorem counterGet_decPop_funext {c : Counter} (hnd : (counterKeys c).Nodup)
    (k : String) : counterGet (counterDecPop c k) = decrAt (counterGet c) k := by
  funext v
  rw [counterGet_decPop hnd k v]
  rfl

theorem updateAux_eq_reconcileSpec {c : Counter} (h : counterWF c)
    (ts : List (String × String)) :
    updateAux c ts = reconcileSpec (counterGet c) ts := by
  induction ts generalizing c with
  | nil => rfl
  | cons t rest ih =>
    obtain ⟨url, path⟩ := t
    by_cases hmem : counterMem c url = true
    · have hpos : 0 < counterGet c url := (counterMem_iff_pos h.2 url).mp hmem
      simp only [updateAux, reconcileSpec, hmem, if_true, if_pos hpos]
      rw [ih (counterWF_decPop h url), counterGet_decPop_funext h.1 url]
    · have hzero : ¬ 0 < counterGet c url :=
        fun hp => hmem ((counterMem_iff_pos h.2 url).mpr hp)
      have hmem2 : counterMem c url = false := by simpa using hmem
      rw [show updateAux c ((url, path) :: rest)
          = (url, path) :: updateAux c rest from by simp [updateAux, hmem2]]
      rw [show reconcileSpec (counterGet c) ((url, path) :: rest)
          = (url, path) :: reconcileSpec (counterGet c) rest from by
            simp [reconcileSpec, hzero]]
      rw [ih h]

/-- Bridge: the source function, with its Counter mechanics, equals the
spec-worded reconciliation over the log's count-per-URL multiset. -/
theorem update_downloading_status_eq_reconcileSpec
    (targets : List (String × String)) (records : List LogRecord) :
    update_downloading_status targets records
      = reconcileSpec (logCount records) targets := by
  rw [update_downloading_status,
    updateAux_eq_reconcileSpec (counterWF_counterOf (logUrls records))]
  have : counterGet (counterOf (logUrls records)) = logCount records := by
    funext u
    rw [counterGet_counterOf]
    rfl
  rw [this]

/-! ### Properties of the reconciliation -/

theorem reconcileSpec_sublist (cnt : String → Nat) (ts : List (String × String)) :
    (reconcileSpec cnt ts).Sublist ts := by
  induction ts generalizing cnt with
  | nil => exact List.Sublist.refl _
  | cons t rest ih =>
    obtain ⟨url, path⟩ := t
    simp only [reconcileSpec]
    by_cases hpos : 0 < cnt url
    · rw [if_pos hpos]
      exact (ih _).cons _
    · rw [if_neg hpos]
      exact (ih _).cons₂ _

theorem countUrl_cons_self (u path : String) (rest : List (String × String)) :
    countUrl u ((u, path) :: rest) = countUrl u rest + 1 := by
  simp [countUrl, List.countP_cons]

theorem countUrl_cons_ne {url u : String} (h : ¬ url = u) (path : String)
    (rest : List (String × String)) :
    countUrl u ((url, path) :: rest) = countUrl u rest := by
  simp [countUrl, List.countP_cons, h]

theorem countUrl_reconcileSpec (cnt : String → Nat) (ts : List (String × String))
    (u : String) :
    countUrl u (reconcileSpec cnt ts) = countUrl u ts - cnt u := by
  induction ts generalizing cnt with
  | nil => simp [reconcileSpec, countUrl]
  | cons t rest ih =>
    obtain ⟨url, path⟩ := t
    by_cases hpos : 0 < cnt url
    · rw [show reconcileSpec cnt ((url, path) :: rest)
          = reconcileSpec (decrAt cnt url) rest from by simp [reconcileSpec, hpos]]
      rw [ih]
      by_cases huu : url = u
      · subst huu
        rw [countUrl_cons_self url path rest]
        have hd : decrAt cnt url url = cnt url - 1 := by simp [decrAt]
        rw [hd]
        omega
      · rw [countUrl_cons_ne huu path rest]
        have hd : decrAt cnt url u = cnt u := by
          have hne : ¬ u = url := fun hh => huu hh.symm
          simp [decrAt, hne]
        rw [hd]
    · have hz : cnt url = 0 := Nat.eq_zero_of_not_pos hpos
      rw [show reconcileSpec cnt ((url, path) :: rest)
          = (url, path) :: reconcileSpec cnt rest from by simp [reconcileSpec, hpos]]
      by_cases huu : url = u
      · subst huu
        rw [countUrl_cons_self url path (reconcileSpec cnt rest),
          countUrl_cons_self url path rest, ih]
        omega
      · rw [countUrl_cons_ne huu path (reconcileSpec cnt rest),
          countUrl_cons_ne huu path rest, ih]

theorem reconcileSpec_congr {cnt cnt2 : String → Nat}
    {ts : List (String × String)}
    (h : ∀ u ∈ ts.map Prod.fst, cnt u = cnt2 u) :
    reconcileSpec cnt ts = reconcileSpec cnt2 ts := by
  induction ts generalizing cnt cnt2 with
  | nil => rfl
  | cons t rest ih =>
    obtain ⟨url, path⟩ := t
    have hurl : cnt url = cnt2 url :=
      h url (by simp)
    have hrest : ∀ u ∈ rest.map Prod.fst, cnt u = cnt2 u :=
      fun u hu => h u (by simp [hu])
    by_cases hpos : 0 < cnt url
    · have hpos2 : 0 < cnt2 url := hurl ▸ hpos
      rw [show reconcileSpec cnt ((url, path) :: rest)
          = reconcileSpec (decrAt cnt url) rest from by simp [reconcileSpec, hpos]]
      rw [show reconcileSpec cnt2 ((url, path) :: rest)
          = reconcileSpec (decrAt cnt2 url) rest from by
            simp [reconcileSpec, hpos2]]
      refine ih ?_
      intro u hu
      simp only [decrAt]
      by_cases huu : u = url
      · simp [huu, hurl]
      · simp [huu, hrest u hu]
    · have hpos2 : ¬ 0 < cnt2 url := hurl ▸ hpos
      rw [show reconcileSpec cnt ((url, path) :: rest)
          = (url, path) :: reconcileSpec cnt rest from by simp [reconcileSpec, hpos]]
      rw [show reconcileSpec cnt2 ((url, path) :: rest)
          = (url, path) :: reconcileSpec cnt2 rest from by
            simp [reconcileSpec, hpos2]]
      rw [ih hrest]

theorem reconcileSpec_eq_filter {cnt : String → Nat}
    {ts : List (String × String)} (h : (ts.map Prod.fst).Nodup) :
    reconcileSpec cnt ts = ts.filter fun t => cnt t.1 == 0 := by
  induction ts with
  | nil => rfl
  | cons t rest ih =>
    obtain ⟨url, path⟩ := t
    simp only [List.map_cons, List.nodup_cons] at h
    by_cases hpos : 0 < cnt url
    · have hne : ¬ (cnt (url, path).1 == 0) = true := by
        simp only [beq_iff_eq]
        omega
      rw [show reconcileSpec cnt ((url, path) :: rest)
          = reconcileSpec (decrAt cnt url) rest from by simp [reconcileSpec, hpos]]
      rw [List.filter_cons, if_neg hne]
      have hcg : ∀ u ∈ rest.map Prod.fst, decrAt cnt url u = cnt u := by
        intro u hu
        have hne2 : ¬ u = url := fun hh => h.1 (hh ▸ hu)
        simp [decrAt, hne2]
      rw [reconcileSpec_congr hcg]
      exact ih h.2
    · have hz : cnt url = 0 := Nat.eq_zero_of_not_pos hpos
      have hyes : (cnt (url, path).1 == 0) = true := by
        simp only [beq_iff_eq]
        exact hz
      rw [show reconcileSpec cnt ((url, path) :: rest)
          = (url, path) :: reconcileSpec cnt rest from by simp [reconcileSpec, hpos]]
      rw [List.filter_cons, if_pos hyes, ih h.2]

theorem reconcileSpec_id_of_zero {cnt : String → Nat}
    {ts : List (String × String)} (h : ∀ t ∈ ts, cnt t.1 = 0) :
    reconcileSpec cnt ts = ts := by
  induction ts with
  | nil => rfl
  | cons t rest ih =>
    obtain ⟨url, path⟩ := t
    have hz : cnt url = 0 := h (url, path) (List.mem_cons_self _ _)
    have hpos : ¬ 0 < cnt url := by omega
    rw [show reconcileSpec cnt ((url, path) :: rest)
        = (url, path) :: reconcileSpec cnt rest from by simp [reconcileSpec, hpos]]
    rw [ih fun t ht => h t (List.mem_cons_of_mem _ ht)]

theorem update_downloading_status_idem {targets : List (String × String)}
    (h : (targets.map Prod.fst).Nodup) (records : List LogRecord) :
    update_downloading_status (update_downloading_status targets records) records
      = update_downloading_status targets records := by
  rw [update_downloading_status_eq_reconcileSpec targets records,
    update_downloading_status_eq_reconcileSpec _ records]
  rw [reconcileSpec_eq_filter h]
  refine reconcileSpec_id_of_zero ?_
  intro t ht
  have hmem := List.of_mem_filter ht
  simpa using hmem

/-! ### Claims about reconciliation -/

/-- Claim C1: reconciliation is a multiset subtraction.
`update_downloading_status` (the source's Counter walk) equals the
spec-worded algorithm `reconcileSpec` applied to the count-per-URL multiset
of the log records — build the multiset, walk the targets in original
order, drop a target and decrement while its URL's remaining count is
positive, keep it pending otherwise — and the resulting pending list is a
sublist of the original targets, so it preserves their relative order. -/
theorem C1_reconciliation_is_multiset_subtraction
    (targets : List (String × String)) (records : List LogRecord) :
    update_downloading_status targets records
        = reconcileSpec (logCount records) targets
      ∧ (update_downloading_status targets records).Sublist targets := by
  refine ⟨update_downloading_status_eq_reconcileSpec targets records, ?_⟩
  rw [update_downloading_status_eq_reconcileSpec targets records]
  exact reconcileSpec_sublist _ _

/-- Claim C4 counterexample: reconciliation is not idempotent when a URL is
duplicated among the targets.  With targets [(u,p1),(u,p2)] and a log
holding exactly one "o" record for u (so S = the first target, a subset of
T), the first reconciliation yields [(u,p2)] = T minus S, but running the
reconciliation once more with no new log writes drops (u,p2) as well. -/
theorem C4_idempotence_counterexample :
    update_downloading_status
        (update_downloading_status [("u", "p1"), ("u", "p2")] [⟨"u", "o"⟩])
        [⟨"u", "o"⟩]
      ≠ update_downloading_status [("u", "p1"), ("u", "p2")] [⟨"u", "o"⟩] := by
  decide

/-- Claim C4 (amended): reconciling yields T minus S as a multiset
subtraction per URL — for every target list and log, the pending list
carries `countUrl u targets - logCount records u` occurrences of each URL u
— and re-running the reconciliation consecutively with no new log writes
leaves the pending list unchanged provided the target list has no duplicate
URLs (with duplicate URLs a re-run can drop further targets). -/
theorem C4_resumption_subtraction_and_conditional_idempotence :
    (∀ (targets : List (String × String)) (records : List LogRecord) (u : String),
        countUrl u (update_downloading_status targets records)
          = countUrl u targets - logCount records u)
  ∧ (∀ (targets : List (String × String)) (records : List LogRecord),
        (targets.map Prod.fst).Nodup →
          update_downloading_status
              (update_downloading_status targets records) records
            = update_downloading_status targets records) := by
  constructor
  · intro targets records u
    rw [update_downloading_status_eq_reconcileSpec targets records]
    exact countUrl_reconcileSpec _ _ _
  · intro targets records h
    exact update_downloading_status_idem h records

/-- Witness for C4: concrete instances of both conjuncts, the second with
its no-duplicate-URLs hypothesis discharged. -/
theorem C4_witness :
    countUrl "u" (update_downloading_status [("u", "p1"), ("u", "p2")]
        [⟨"u", "o"⟩]) = 1
  ∧ update_downloading_status
        (update_downloading_status [("a", "p"), ("b", "q")] [⟨"a", "o"⟩])
        [⟨"a", "o"⟩]
      = update_downloading_status [("a", "p"), ("b", "q")] [⟨"a", "o"⟩] := by
  constructor
  · rw [C4_resumption_subtraction_and_conditional_idempotence.1
      [("u", "p1"), ("u", "p2")] [⟨"u", "o"⟩] "u"]
    decide
  · exact C4_resumption_subtraction_and_conditional_idempotence.2
      [("a", "p"), ("b", "q")] [⟨"a", "o"⟩] (by decide)

/-- Claim C5: duplicate URL handling.  Two targets with the same URL but
different destination paths, reconciled against a log holding exactly one
"o" record for that URL, leave exactly one target pending, namely the
second occurrence: the first occurrence in original list order is the one
consumed by the log record. -/
theorem C5_duplicate_url_one_pending (u p1 p2 : String) (h : p1 ≠ p2) :
    update_downloading_status [(u, p1), (u, p2)] [⟨u, "o"⟩] = [(u, p2)] := by
  simp [update_downloading_status, logUrls, counterOf, counterIncr, updateAux,
    counterMem, counterDecPop]

/-- Witness for C5 at concrete strings. -/
theorem C5_witness :
    update_downloading_status [("u", "pa"), ("u", "pb")] [⟨"u", "o"⟩]
      = [("u", "pb")] :=
  C5_duplicate_url_one_pending "u" "pa" "pb" (by decide)

/-! ### Constructor: url list / output name list handling (C9, C10) -/

/-- Python truthiness of the optional `output_name_list` argument
(`if output_name_list:`): true only for a supplied, non-empty list. -/
def listTruthy (l : Option (List String)) : Bool :=
  match l with
  | some (_ :: _) => true
  | _ => false

/-- The url-list / output-path-list setup in `URLDownloader_v2.__init__`,
parameterized by the two path-derivation functions the constructor uses:
`name_to_path name` for `os.path.join(local_output_path, "data", name)` and
`outpath_of url` for `self.get_outpath_from_url(url)` (URL parsing and path
joining are Python stdlib, outside this repository; the claims only concern
which derivation is applied to what).  Returns the resulting
(url_list, output_path_list) pair, or the `AssertionError` the constructor
raises on mismatched lengths.  `list(set(url_list))` deduplicates by value
in an unspecified iteration order; the model fixes first-occurrence order
(`List.dedup`), on which no claim depends. -/
def initTargets (outpath_of name_to_path : String → String)
    (url_list : List String) (output_name_list : Option (List String)) :
    Except String (List String × List String) :=
  if listTruthy output_name_list then
    let names := output_name_list.getD []
    if url_list.length = names.length then
      Except.ok (url_list, names.map name_to_path)
    else
      Except.error "AssertionError"
  else
    let urls := url_list.dedup
    Except.ok (urls, urls.map outpath_of)

/-- Claim C9 (amended): supplying a NON-EMPTY explicit output-name list of a
length different from the URL list's makes construction fail with the
assertion error (no object is constructed); with equal lengths the
url-to-name pairing is preserved without deduplication — the url list is
kept as given and each name is turned into its output path, positionally.
(The amendment: an explicit but EMPTY name list is falsy in Python and
bypasses the length check, see the counterexample and claim C10.) -/
theorem C9_mismatched_name_list_raises
    (f g : String → String) (url_list names : List String) :
    (names ≠ [] → url_list.length ≠ names.length →
      initTargets f g url_list (some names) = Except.error "AssertionError")
  ∧ (names ≠ [] → url_list.length = names.length →
      initTargets f g url_list (some names)
        = Except.ok (url_list, names.map g)) := by
  constructor
  · intro hne hlen
    obtain ⟨n, ns, rfl⟩ := List.exists_cons_of_ne_nil hne
    simp only [List.length_cons] at hlen
    simp [initTargets, listTruthy, hlen]
  · intro hne hlen
    obtain ⟨n, ns, rfl⟩ := List.exists_cons_of_ne_nil hne
    simp only [List.length_cons] at hlen
    simp [initTargets, listTruthy, hlen]

/-- Witness for C9: both conjuncts at concrete inputs. -/
theorem C9_witness :
    initTargets (fun s => s) (fun s => s) ["a"] (some ["x", "y"])
        = Except.error "AssertionError"
  ∧ initTargets (fun s => s) (fun s => s) ["a", "b"] (some ["x", "y"])
        = Except.ok (["a", "b"], ["x", "y"].map (fun s => s)) :=
  ⟨(C9_mismatched_name_list_raises (fun s => s) (fun s => s) ["a"]
      ["x", "y"]).1 (by decide) (by decide),
   (C9_mismatched_name_list_raises (fun s => s) (fun s => s) ["a", "b"]
      ["x", "y"]).2 (by decide) (by decide)⟩

/-- Claim C9 counterexample: an explicit output-name list CAN differ in
length from the URL list without raising — the empty list.  Python's
`if output_name_list:` is false for `[]`, so the assert is skipped and
construction succeeds (lengths 1 and 0 differ here). -/
theorem C9_counterexample_empty_name_list :
    initTargets (fun s => s) (fun s => s) ["u"] (some [])
      = Except.ok (["u"], ["u"]) := by
  rfl

/-- Claim C10: constructing with `output_name_list = []` and a non-empty
URL list raises no configuration error; it behaves exactly as if no name
list had been supplied — the URL list is deduplicated by value and every
destination filename is derived from its URL. -/
theorem C10_empty_name_list_acts_as_none
    (f g : String → String) (url_list : List String) (h : url_list ≠ []) :
    initTargets f g url_list (some []) = initTargets f g url_list none
  ∧ initTargets f g url_list (some [])
      = Except.ok (url_list.dedup, url_list.dedup.map f) := by
  exact ⟨rfl, rfl⟩

/-- Witness for C10 on a URL list with a duplicate. -/
theorem C10_witness :
    initTargets (fun s => s) (fun s => s) ["a", "b", "a"] (some [])
        = initTargets (fun s => s) (fun s => s) ["a", "b", "a"] none
  ∧ initTargets (fun s => s) (fun s => s) ["a", "b", "a"] (some [])
        = Except.ok (["a", "b", "a"].dedup,
            (["a", "b", "a"].dedup).map (fun s => s)) :=
  C10_empty_name_list_acts_as_none (fun s => s) (fun s => s) ["a", "b", "a"]
    (by decide)

/-! ### Fetcher and per-worker error breaker (C3, C7, C8) -/

/-- The result of `session.get(url, timeout=...)`: either a response object
whose Python truthiness is `ok` (status_code < 400) with the given status
code, or a raised exception (`requests` Timeout / ConnectionError). -/
inductive FetchResult where
  | resp (ok : Bool) (status : Nat)
  | exn (msg : String)
deriving DecidableEq, Repr

/-- Whether `session.get` returned at all (no exception raised). -/
def FetchResult.isResp : FetchResult → Bool
  | .resp _ _ => true
  | .exn _ => false

/-- Whether the fetch counts as a success (`if response:` taken). -/
def FetchResult.isOk : FetchResult → Bool
  | .resp ok _ => ok
  | .exn _ => false

/-- What one `download_site` call leaves behind when it returns normally:
the `print_to_log_file` buffer it built, the worker's thread-local
consecutive-error counter after the call, and whether the call performed the
breaker's cooldown sleep (`time.sleep(self.stop_interval)`). -/
structure WorkerRes where
  records : List LogRecord
  cntr : Nat
  paused : Bool
deriving DecidableEq, Repr

/-- `URLDownloader_v2.download_site` for one url.  `tol` is
`err_tolerance_num`, `cntr` the calling worker's thread-local `err_cntr`
before the call, `fr` what `session.get` does for this url.  The body
mirrors the source: a raised exception propagates (there is no try/except
in `download_site`); a truthy response buffers an "o" record and zeroes the
counter (`set_to_zero_thread_local_err_cntr`); a falsy response buffers an
"x" record and, if the counter has reached the tolerance, sleeps and zeroes
the counter, then in all failure cases increments it
(`increment_thread_local_err_cntr`).  Writing the body to disk, stderr
progress output and the shared `url_cnter` are side effects outside the
model. -/
def download_site (tol : Nat) (url : String) (fr : FetchResult) (cntr : Nat) :
    Except String WorkerRes :=
  match fr with
  | .exn msg => Except.error msg
  | .resp ok _status =>
      if ok then
        Except.ok ⟨[⟨url, "o"⟩], 0, false⟩
      else
        let reset := if cntr ≥ tol then (0, true) else (cntr, false)
        Except.ok ⟨[⟨url, "x"⟩], reset.1 + 1, reset.2⟩

/-- One worker processing its assigned targets in sequence, threading its
thread-local error counter through consecutive `download_site` calls;
returns the final counter and how many cooldown pauses occurred. -/
def run_worker (tol : Nat) (cntr : Nat) :
    List (String × FetchResult) → Except String (Nat × Nat)
  | [] => Except.ok (cntr, 0)
  | (url, fr) :: rest =>
      match download_site tol url fr cntr with
      | Except.error e => Except.error e
      | Except.ok r =>
          match run_worker tol r.cntr rest with
          | Except.error e => Except.error e
          | Except.ok p => Except.ok (p.1, (if r.paused then 1 else 0) + p.2)

example : run_worker 2 0
    [("a", .resp false 404), ("b", .resp false 404), ("c", .resp false 404)]
      = Except.ok (1, 1) := rfl

example : run_worker 2 0
    [("a", .resp false 404), ("b", .resp true 200), ("c", .resp false 404)]
      = Except.ok (1, 0) := rfl

/-- Claim C3 counterexample: a timed-out GET is NOT converted into a
Failure record.  `download_site` contains no try/except, so the exception
`session.get` raises on a timeout propagates unchanged out of the worker
call instead of producing an "x" record. -/
theorem C3_counterexample_timeout_raises :
    download_site 1000 "u" (FetchResult.exn "requests.exceptions.Timeout") 0
      = Except.error "requests.exceptions.Timeout" := rfl

/-- Claim C3 (amended): a falsy (non-2xx) response is converted into a
Failure "x" record inside the worker and raises nothing, so the rest of the
batch continues; but a timeout or connection error raised by the GET
propagates unchanged out of `download_site` (the worker has no exception
handler), and in particular a timed-out GET is not recorded as a Failure. -/
theorem C3_non2xx_failure_exception_propagates
    (tol : Nat) (url : String) (status : Nat) (cntr : Nat) (msg : String) :
    (∃ r : WorkerRes,
        download_site tol url (FetchResult.resp false status) cntr
            = Except.ok r
          ∧ r.records = [⟨url, "x"⟩])
  ∧ download_site tol url (FetchResult.exn msg) cntr = Except.error msg :=
  ⟨⟨_, rfl, rfl⟩, rfl⟩

theorem run_worker_all_success {tol : Nat} :
    ∀ (jobs : List (String × FetchResult)) (cntr : Nat),
      (∀ j ∈ jobs, (j.2).isOk = true) →
        ∃ final : Nat, run_worker tol cntr jobs = Except.ok (final, 0)
  | [], cntr, _ => ⟨cntr, rfl⟩
  | (url, fr) :: rest, cntr, h => by
      have hok : fr.isOk = true := h (url, fr) (List.mem_cons_self _ _)
      cases fr with
      | exn msg => simp [FetchResult.isOk] at hok
      | resp ok status =>
        simp only [FetchResult.isOk] at hok
        subst hok
        obtain ⟨final, hfin⟩ := @run_worker_all_success tol rest 0
          (fun j hj => h j (List.mem_cons_of_mem _ hj))
        refine ⟨final, ?_⟩
        simp [run_worker, download_site, hfin]

/-- Claim C7: breaker trip count and reset on success.
(1) Any success zeroes the calling worker's consecutive-failure counter
immediately; (2) with err_tolerance_num = 2, a fresh worker fed 3
consecutive failures performs exactly one cooldown pause; (3) a worker
receiving only successes pauses zero times. -/
theorem C7_breaker_trip_count_and_reset :
    (∀ (tol : Nat) (url : String) (status : Nat) (cntr : Nat),
        download_site tol url (FetchResult.resp true status) cntr
          = Except.ok ⟨[⟨url, "o"⟩], 0, false⟩)
  ∧ (∀ (u1 u2 u3 : String) (s1 s2 s3 : Nat),
        run_worker 2 0 [(u1, FetchResult.resp false s1),
            (u2, FetchResult.resp false s2), (u3, FetchResult.resp false s3)]
          = Except.ok (1, 1))
  ∧ (∀ (tol : Nat) (jobs : List (String × FetchResult)) (cntr : Nat),
        (∀ j ∈ jobs, (j.2).isOk = true) →
          ∃ final : Nat, run_worker tol cntr jobs = Except.ok (final, 0)) := by
  refine ⟨fun tol url status cntr => rfl,
    fun u1 u2 u3 s1 s2 s3 => rfl,
    fun tol jobs cntr h => run_worker_all_success jobs cntr h⟩

/-- Witness for C7: all three conjuncts at concrete inputs. -/
theorem C7_witness :
    download_site 2 "w" (FetchResult.resp true 200) 5
        = Except.ok ⟨[⟨"w", "o"⟩], 0, false⟩
  ∧ run_worker 2 0 [("a", FetchResult.resp false 404),
        ("b", FetchResult.resp false 500), ("c", FetchResult.resp false 403)]
      = Except.ok (1, 1)
  ∧ ∃ final : Nat,
      run_worker 2 0 [("a", FetchResult.resp true 200),
          ("b", FetchResult.resp true 200)]
        = Except.ok (final, 0) :=
  ⟨C7_breaker_trip_count_and_reset.1 2 "w" 200 5,
   C7_breaker_trip_count_and_reset.2.1 "a" "b" "c" 404 500 403,
   C7_breaker_trip_count_and_reset.2.2 2
     [("a", FetchResult.resp true 200), ("b", FetchResult.resp true 200)] 0
     (by decide)⟩

/-- Claim C8 counterexample: with err_tolerance_num = 2 and the worker's
counter at 2, a further failure fires the cooldown (paused = true), but the
counter after the call is 1, not 0: the code zeroes it and then runs the
unconditional `increment_thread_local_err_cntr()`. -/
theorem C8_counterexample_counter_not_zero :
    download_site 2 "u" (FetchResult.resp false 404) 2
      = Except.ok ⟨[⟨"u", "x"⟩], 1, true⟩ := rfl

/-- Claim C8 (amended): whenever a failure triggers the breaker's cooldown,
after the stop_interval pause completes and the failing call returns, the
worker's consecutive-failure counter equals ONE — the reset to zero is
followed by the unconditional increment that counts the pause-triggering
failure. -/
theorem C8_post_cooldown_counter_is_one
    (tol : Nat) (url : String) (status : Nat) (cntr : Nat) (h : tol ≤ cntr) :
    download_site tol url (FetchResult.resp false status) cntr
      = Except.ok ⟨[⟨url, "x"⟩], 1, true⟩ := by
  simp [download_site, h]

/-- Witness for C8 at concrete inputs. -/
theorem C8_witness :
    download_site 3 "u" (FetchResult.resp false 500) 7
      = Except.ok ⟨[⟨"u", "x"⟩], 1, true⟩ :=
  C8_post_cooldown_counter_is_one 3 "u" 500 7 (by decide)

/-! ### Batch runner and orchestrator (C2, C6) -/

/-- The downloader state the batch loop reads and writes: the pending
url/path lists and the progress-log file contents. -/
structure DState where
  url_list : List String
  output_path_list : List String
  log : List LogRecord
deriving DecidableEq, Repr

/-- The log record `download_site` buffers for a url whose fetch returns a
response: "o" for a truthy response, "x" for a falsy one. -/
def recOf (fetch : String → FetchResult) (url : String) : LogRecord :=
  ⟨url, if (fetch url).isOk then "o" else "x"⟩

/-- The `num` local of `batch_download_sites`: it is assigned ONLY in the
`if batch_size == -1` branch, so every other batch_size leaves it unbound
and `self.url_list[:num]` raises. -/
def computeNum (batch_size : Int) (len : Nat) : Option Nat :=
  if batch_size = -1 then some len else none

theorem computeNum_neg_one (len : Nat) : computeNum (-1) len = some len := rfl

/-- `executor.map(self.download_site, urls, paths)` followed by
`results = list(results)`: every submitted target's `download_site` runs,
and iterating the results yields the per-call record buffers in input order
or re-raises the first raised exception (input order), in which case the
caller never reaches its log append.  `cntrs` supplies the thread-local
error counter each call happens to observe — which pool worker executes
which call is scheduler-dependent, and no record depends on it. -/
def run_pool (tol : Nat) (fetch : String → FetchResult) :
    List (String × String) → List Nat → Except String (List LogRecord)
  | [], _ => Except.ok []
  | (url, _path) :: rest, cntrs =>
      match download_site tol url (fetch url) (cntrs.headD 0) with
      | Except.error e => Except.error e
      | Except.ok r =>
          match run_pool tol fetch rest cntrs.tail with
          | Except.error e => Except.error e
          | Except.ok recs => Except.ok (r.records ++ recs)

/-- `URLDownloader_v2.batch_download_sites`.  Mirrors the source: compute
`num` (unbound unless batch_size == -1), run the first `num` targets
through the pool, wait for all results, write every buffered record to the
log file in one single append, then recompute the pending lists with
`update_downloading_status` from the full current lists and the new log. -/
def batch_download_sites (tol : Nat) (fetch : String → FetchResult)
    (cntrs : List Nat) (st : DState) (batch_size : Int) :
    Except String DState :=
  match computeNum batch_size st.url_list.length with
  | none =>
      Except.error "UnboundLocalError: local variable num referenced before assignment"
  | some num =>
      match run_pool tol fetch ((st.url_list.zip st.output_path_list).take num)
          cntrs with
      | Except.error e => Except.error e
      | Except.ok recs =>
          let newLog := st.log ++ recs
          let pending := update_downloading_status
            (st.url_list.zip st.output_path_list) newLog
          Except.ok ⟨pending.map Prod.fst, pending.map Prod.snd, newLog⟩

/-- `URLDownloader_v2.download_all_sites`:
`while len(self.url_list) > 0: self.batch_download_sites(batch_size)`.
`fuel` bounds the loop iterations so the model is total; claims instantiate
it with enough iterations. -/
def download_all_sites (tol : Nat) (fetch : String → FetchResult)
    (cntrs : List Nat) (batch_size : Int) :
    Nat → DState → Except String DState
  | 0, st =>
      if st.url_list.length > 0 then Except.error "model out of fuel"
      else Except.ok st
  | fuel + 1, st =>
      if st.url_list.length > 0 then
        match batch_download_sites tol fetch cntrs st batch_size with
        | Except.error e => Except.error e
        | Except.ok st2 => download_all_sites tol fetch cntrs batch_size fuel st2
      else Except.ok st

/-- Claim C2, evaluated at the failing input: with one pending target and a
fetch that responds, download_all_sites with its DEFAULT batch_size 1024
crashes on the first iteration with the unbound-local error — `num` is only
assigned when batch_size == -1 — instead of batching until pending is
empty; the same state under batch_size = -1 ("everything") drains to an
empty pending list and returns. -/
theorem C2_default_batch_size_crashes :
    download_all_sites 1000 (fun _ => FetchResult.resp true 200) [0] 1024 5
        ⟨["u"], ["p"], []⟩
      = Except.error
          "UnboundLocalError: local variable num referenced before assignment"
  ∧ download_all_sites 1000 (fun _ => FetchResult.resp true 200) [0] (-1) 5
        ⟨["u"], ["p"], []⟩
      = Except.ok ⟨[], [], [⟨"u", "o"⟩]⟩ :=
  ⟨rfl, rfl⟩

/-- Claim C6 counterexample: a submitted batch of K = 1 target whose fetch
raises (times out) appends 0 records, not K: iterating the pool results
re-raises the exception before the single log append is reached, and
`batch_download_sites` propagates it. -/
theorem C6_counterexample_timeout_aborts_append :
    batch_download_sites 1000 (fun _ => FetchResult.exn "Timeout") [0]
        ⟨["u"], ["p"], []⟩ (-1)
      = Except.error "Timeout" := rfl

theorem run_pool_all_resp {tol : Nat} {fetch : String → FetchResult} :
    ∀ (targets : List (String × String)) (cntrs : List Nat),
      (∀ t ∈ targets, (fetch t.1).isResp = true) →
        run_pool tol fetch targets cntrs
          = Except.ok (targets.map fun t => recOf fetch t.1)
  | [], _, _ => rfl
  | (url, path) :: rest, cntrs, h => by
      have hresp := h (url, path) (List.mem_cons_self _ _)
      have ih := @run_pool_all_resp tol fetch rest cntrs.tail
        (fun t ht => h t (List.mem_cons_of_mem _ ht))
      cases hf : fetch url with
      | exn msg =>
        rw [hf] at hresp
        simp [FetchResult.isResp] at hresp
      | resp ok s =>
        cases ok with
        | true => simp [run_pool, hf, download_site, ih, recOf, FetchResult.isOk]
        | false => simp [run_pool, hf, download_site, ih, recOf, FetchResult.isOk]

/-- Claim C6 (amended): batch completion barrier when no fetch raises.  For
a batch submitted with batch_size = -1 (the only non-crashing value, see
claim C2) over a state with equally long url/path lists, provided every
pending url's fetch yields a response, `batch_download_sites` returns only
after every submitted target has produced its outcome and its new log is
the old log plus exactly K records — one per submitted target, in order,
"o" for success and "x" for failure — appended in one single append after
the pool has drained.  A raised fetch exception instead aborts the call
with nothing appended (see the counterexample). -/
theorem C6_batch_appends_exactly_K_records
    (tol : Nat) (fetch : String → FetchResult) (cntrs : List Nat) (st : DState)
    (hlen : st.url_list.length = st.output_path_list.length)
    (hresp : ∀ u ∈ st.url_list, (fetch u).isResp = true) :
    ∃ st2 : DState,
      batch_download_sites tol fetch cntrs st (-1) = Except.ok st2
        ∧ st2.log = st.log ++ st.url_list.map (recOf fetch)
        ∧ (st.url_list.map (recOf fetch)).length = st.url_list.length := by
  have htake : (st.url_list.zip st.output_path_list).take st.url_list.length
      = st.url_list.zip st.output_path_list := by
    apply List.take_of_length_le
    rw [List.length_zip]
    omega
  have hfst : (st.url_list.zip st.output_path_list).map Prod.fst
      = st.url_list :=
    List.map_fst_zip _ _ (le_of_eq hlen)
  have hpool : run_pool tol fetch (st.url_list.zip st.output_path_list) cntrs
      = Except.ok ((st.url_list.zip st.output_path_list).map
          fun t => recOf fetch t.1) := by
    apply run_pool_all_resp
    intro t ht
    obtain ⟨a, b⟩ := t
    exact hresp a (List.of_mem_zip ht).1
  have hmapmap : (st.url_list.zip st.output_path_list).map
        (fun t => recOf fetch t.1)
      = st.url_list.map (recOf fetch) := by
    rw [show ((fun t : String × String => recOf fetch t.1))
        = (recOf fetch) ∘ Prod.fst from rfl]
    rw [← List.map_map, hfst]
  refine ⟨⟨(update_downloading_status (st.url_list.zip st.output_path_list)
        (st.log ++ st.url_list.map (recOf fetch))).map Prod.fst,
      (update_downloading_status (st.url_list.zip st.output_path_list)
        (st.log ++ st.url_list.map (recOf fetch))).map Prod.snd,
      st.log ++ st.url_list.map (recOf fetch)⟩, ?_, rfl,
    by rw [List.length_map]⟩
  simp only [batch_download_sites, computeNum_neg_one, htake, hpool, hmapmap]

/-- Witness for C6 at a one-target state with a succeeding fetch. -/
theorem C6_witness :
    ∃ st2 : DState,
      batch_download_sites 1000 (fun _ => FetchResult.resp true 200) [0]
          ⟨["u"], ["p"], []⟩ (-1) = Except.ok st2
        ∧ st2.log = []
            ++ ["u"].map (recOf fun _ => FetchResult.resp true 200)
        ∧ (["u"].map (recOf fun _ => FetchResult.resp true 200)).length
            = (["u"] : List String).length :=
  C6_batch_appends_exactly_K_records 1000 (fun _ => FetchResult.resp true 200)
    [0] ⟨["u"], ["p"], []⟩ rfl (fun _ _ => rfl)
